import Mathlib

/-!
Verification of the puzzle-generation core of the BetterSeason repository
(file `golf/game.js`): the mulberry32 seeded RNG, the seeded Fisher-Yates
shuffle, the CSV parsing and filtering pipeline, the puzzle builder, and the
two pure presentation helpers `formatScore` and `getScoreBackgroundColor`.

Embedding conventions:
* JavaScript numbers that are only ever used through 32-bit coercions
  (`>>>`, `^`, `|`, `Math.imul`) are modelled as `Nat` with explicit
  `% 4294967296` where the coercion truncates.  The mulberry32 state
  variable `seed` is never truncated by the JS code itself (it grows by a
  fixed constant per call), so it is modelled as an untruncated `Int`;
  every use of it goes through the ToUint32 coercion, modelled as
  `% 4294967296` (Euclidean mod, matching ToUint32 on negative values).
* The floating-point value returned by the generator is `t / 4294967296`
  with `t < 2^32`; this is an exact dyadic rational, modelled in `ℚ`.
  The shuffle computes `Math.floor(rng() * (i + 1))`; for sub-degree-2^21
  lengths the double multiplication `t * (i+1)` is exact, so the floor is
  exactly Nat division `t * (i + 1) / 4294967296`.
* Thrown JS exceptions are modelled with `Except String`.
* JS `Map` (insertion-ordered) is modelled as an association list to which
  new keys are appended at the end.
-/

namespace BetterSeason

/-! ### Constants from `golf/game.js` -/

def GOLFERS_PER_GAME : Nat := 4
def CARDS_PER_GOLFER : Nat := 4
def MIN_YEAR : Int := 2020
def MAX_YEAR : Int := 2025
def EXCLUDED_POSITIONS : List String := ["cut", "wd", "dq", "mdf"]

/-- `2^32`, the divisor in mulberry32's output normalisation. -/
def U32 : Nat := 4294967296

/-! ### mulberry32 (`game.js` lines 20-27)

```js
function mulberry32(seed) {
  return function () {
    let t = (seed += 0x6d2b79f5);
    t = Math.imul(t ^ (t >>> 15), t | 1);
    t ^= t + Math.imul(t ^ (t >>> 7), t | 61);
    return ((t ^ (t >>> 14)) >>> 0) / 4294967296;
  };
}
```

The closure's captured `seed` is the generator state; one call is one step.
`mulberry32Step s` returns the new state and the 32-bit numerator of the
returned value (the JS return value is that numerator divided by `2^32`). -/

def mulberry32Step (seed : Int) : Int × Nat :=
  let seed' := seed + 0x6d2b79f5
  let t1 : Nat := (seed' % (U32 : Int)).toNat
  let t2 : Nat := ((t1 ^^^ (t1 >>> 15)) * (t1 ||| 1)) % U32
  let t3 : Nat := t2 ^^^ ((t2 + ((t2 ^^^ (t2 >>> 7)) * (t2 ||| 61)) % U32) % U32)
  (seed', t3 ^^^ (t3 >>> 14))

/-- Generator state after `n` draws starting from `seed`. -/
def mulberry32StateN (seed : Int) : Nat → Int
  | 0 => seed
  | n + 1 => (mulberry32Step (mulberry32StateN seed n)).1

/-- 32-bit numerator of the `n`-th draw (0-indexed) of `mulberry32(seed)`. -/
def mulberry32Draw (seed : Int) (n : Nat) : Nat :=
  (mulberry32Step (mulberry32StateN seed n)).2

/-- The `n`-th floating-point value returned by `mulberry32(seed)`, as an
exact rational. -/
def mulberry32DrawVal (seed : Int) (n : Nat) : ℚ :=
  (mulberry32Draw seed n : ℚ) / (U32 : ℚ)

/-! ### Fisher-Yates shuffle (`game.js` lines 29-36)

```js
function shuffleWithRng(arr, rng) {
  const out = [...arr];
  for (let i = out.length - 1; i > 0; i--) {
    const j = Math.floor(rng() * (i + 1));
    [out[i], out[j]] = [out[j], out[i]];
  }
  return out;
}
```

The loop index `i` runs from `out.length - 1` down to `1`; in
`fisherYatesAux` the fuel `k` equals the current `i`, so the recursive call
at fuel `k + 1` performs the JS iteration with `i = k + 1` and swap index
`j = floor(draw * (i + 1)) = draw * (k + 2) / 2^32`.  The generator is
abstract (`step : σ → σ × Nat`, new state paired with the 32-bit draw
numerator) so the lemmas hold for every generator, as the spec demands.
The input list is returned as a fresh value; the original is untouched
(our embedding is pure, matching the JS `const out = [...arr]` copy). -/

def listSwap {α : Type} (l : List α) (i j : Nat) : List α :=
  match l[i]?, l[j]? with
  | some a, some b => (l.set i b).set j a
  | _, _ => l

def fisherYatesAux {α σ : Type} (step : σ → σ × Nat) : Nat → List α → σ → List α × σ
  | 0, out, s => (out, s)
  | k + 1, out, s =>
    let d := (step s).2
    let j := d * (k + 2) / U32
    fisherYatesAux step k (listSwap out (k + 1) j) (step s).1

def shuffleWithRng {α σ : Type} (arr : List α) (step : σ → σ × Nat) (s : σ) :
    List α × σ :=
  fisherYatesAux step (arr.length - 1) arr s

/-- State of an abstract generator after `n` draws. -/
def rngIterate {σ : Type} (step : σ → σ × Nat) : Nat → σ → σ
  | 0, s => s
  | n + 1, s => rngIterate step n (step s).1

/-! ### Permutation lemmas for the shuffle -/

theorem listSwap_perm {α : Type} (l : List α) (i j : Nat) :
    (listSwap l i j).Perm l := by
  classical
  unfold listSwap
  cases hi : l[i]? with
  | none => cases l[j]? <;> exact List.Perm.refl l
  | some a =>
    cases hj : l[j]? with
    | none => exact List.Perm.refl l
    | some b =>
      obtain ⟨hi', hia⟩ := List.getElem?_eq_some_iff.mp hi
      obtain ⟨hj', hjb⟩ := List.getElem?_eq_some_iff.mp hj
      rw [List.perm_iff_count]
      intro x
      have hj'' : j < (l.set i b).length := by simpa using hj'
      have hOuter := List.count_set a x (l.set i b) j hj''
      have hInner := List.count_set b x l i hi'
      have hsetj : (l.set i b)[j] = b := by
        rw [List.getElem_set]
        split
        · rfl
        · exact hjb
      rw [hsetj] at hOuter
      have hbound : (if l[i] == x then 1 else 0) ≤ l.count x := by
        by_cases h : l[i] == x
        · simp only [h, if_pos]
          have hmem : x ∈ l := by
            have := eq_of_beq h
            subst this
            exact List.getElem_mem hi'
          exact List.count_pos_iff.mpr hmem
        · simp [h]
      rw [hInner] at hOuter
      rw [hia] at hbound hOuter
      rw [hOuter]
      omega

theorem fisherYatesAux_perm {α σ : Type} (step : σ → σ × Nat) :
    ∀ (k : Nat) (out : List α) (s : σ), (fisherYatesAux step k out s).1.Perm out := by
  intro k
  induction k with
  | zero => intro out s; exact List.Perm.refl out
  | succ k ih =>
    intro out s
    exact (ih _ _).trans (listSwap_perm _ _ _)

theorem fisherYatesAux_state {α σ : Type} (step : σ → σ × Nat) :
    ∀ (k : Nat) (out : List α) (s : σ),
      (fisherYatesAux step k out s).2 = rngIterate step k s := by
  intro k
  induction k with
  | zero => intro out s; rfl
  | succ k ih =>
    intro out s
    show (fisherYatesAux step k _ _).2 = _
    rw [ih]
    -- `rngIterate` peels draws from the front, the loop from the back;
    -- commute one step.
    clear ih
    induction k generalizing s with
    | zero => rfl
    | succ m ihm => exact ihm _

theorem shuffleWithRng_perm {α σ : Type} (arr : List α) (step : σ → σ × Nat) (s : σ) :
    (shuffleWithRng arr step s).1.Perm arr :=
  fisherYatesAux_perm step (arr.length - 1) arr s

theorem shuffleWithRng_length {α σ : Type} (arr : List α) (step : σ → σ × Nat) (s : σ) :
    (shuffleWithRng arr step s).1.length = arr.length :=
  (shuffleWithRng_perm arr step s).length_eq

theorem shuffleWithRng_state {α σ : Type} (arr : List α) (step : σ → σ × Nat) (s : σ) :
    (shuffleWithRng arr step s).2 = rngIterate step (arr.length - 1) s :=
  fisherYatesAux_state step (arr.length - 1) arr s

/-! ### CSV parsing (`game.js` lines 38-50)

```js
function parseCSV(text) {
  const lines = text.trim().split(/\r?\n/);
  if (lines.length < 2) return [];
  const headers = lines[0].split(',').map((h) => h.trim());
  const rows = [];
  for (let i = 1; i < lines.length; i++) {
    const vals = lines[i].split(',').map((v) => v.trim());
    const row = {};
    headers.forEach((h, j) => (row[h] = vals[j] ?? ''));
    rows.push(row);
  }
  return rows;
}
```

String primitives (`trim`, `split`, `toLowerCase`) are modelled
structurally over the character list `String.data`, with the ASCII
whitespace set (JS `trim` agrees on ASCII input).  Splitting on the regex
`\r?\n` is modelled as splitting on `\n` and then removing one trailing
`\r` from each segment; on a trimmed string (no trailing whitespace) this
is exactly the regex split, because a segment can only end in `\r` when
the original text had `\r` directly before a `\n` or at the very end.  A
JS row object is modelled as an association list built by `setField`
(later assignment to an existing key overwrites, new keys are appended),
read through `rowGet` (JS property access; `none` models `undefined`). -/

def isWSChar (c : Char) : Bool :=
  decide (c = ' ' ∨ c = '\t' ∨ c = '\n' ∨ c = '\x0d' ∨ c = '\x0b' ∨ c = '\x0c')

def jsTrim (s : String) : String :=
  ⟨(((s.data.dropWhile isWSChar).reverse.dropWhile isWSChar).reverse : List Char)⟩

def jsTrimLeft (s : String) : String :=
  ⟨s.data.dropWhile isWSChar⟩

def jsCharToLower (c : Char) : Char :=
  if decide ('A' ≤ c ∧ c ≤ 'Z') then Char.ofNat (c.toNat + 32) else c

def jsToLower (s : String) : String :=
  ⟨s.data.map jsCharToLower⟩

def splitOnChar (sep : Char) (cs : List Char) : List (List Char) :=
  cs.foldr
    (fun c acc =>
      if c = sep then [] :: acc
      else
        match acc with
        | [] => [[c]]
        | h :: t => (c :: h) :: t)
    [[]]

def jsSplit (sep : Char) (s : String) : List String :=
  (splitOnChar sep s.data).map fun cs => ⟨cs⟩

def stripCR (line : String) : String :=
  if line.data.getLast? = some '\x0d' then ⟨line.data.dropLast⟩ else line

def splitLines (text : String) : List String :=
  (jsSplit '\n' (jsTrim text)).map stripCR

def setField (row : List (String × String)) (h v : String) :
    List (String × String) :=
  if h ∈ row.map Prod.fst then
    row.map fun e => if e.1 = h then (e.1, v) else e
  else row ++ [(h, v)]

def rowGet (row : List (String × String)) (h : String) : Option String :=
  (row.find? fun e => decide (e.1 = h)).map Prod.snd

/-- `headers.forEach((h, j) => (row[h] = vals[j] ?? ''))` -/
def buildRow (headers vals : List String) : List (String × String) :=
  headers.enum.foldl (fun row jh => setField row jh.2 (vals.getD jh.1 "")) []

def parseCSV (text : String) : List (List (String × String)) :=
  match splitLines text with
  | [] => []
  | [_] => []
  | l0 :: rest =>
    rest.map fun line =>
      buildRow ((jsSplit ',' l0).map jsTrim)
        ((jsSplit ',' line).map jsTrim)

/-- The trimmed header names of a CSV text (first line). -/
def csvHeaders (text : String) : List String :=
  (jsSplit ',' ((splitLines text).getD 0 "")).map jsTrim

/-- The trimmed fields of one CSV line. -/
def csvFields (line : String) : List String :=
  (jsSplit ',' line).map jsTrim

/-! ### The `loadData` filter pipeline (`game.js` lines 59-74)

```js
rows
  .filter((r) => r.score_to_par !== '' && r.score_to_par !== undefined)
  .filter((r) => {
    const pos = (r.position || '').trim().toLowerCase();
    return !EXCLUDED_POSITIONS.has(pos);
  })
  .map((r) => ({
    player_name: (r.player_name || '').trim(),
    event_name: (r.event_name || '').trim(),
    year: parseInt(r.year, 10) || 0,
    score_to_par: parseInt(r.score_to_par, 10),
  }))
  .filter((r) => r.player_name && !isNaN(r.score_to_par))
  .filter((r) => r.year >= MIN_YEAR && r.year <= MAX_YEAR);
```

`jsParseInt` models `parseInt(s, 10)`: skip leading whitespace, optional
sign, then the longest digit prefix; `none` models `NaN` (no digits).
`parseInt(x) || 0` is `(jsParseInt x).getD 0` (a parsed `0` is falsy in
JS and is replaced by the same `0`).  `r.field || ''` on a possibly
missing field is `(rowGet r "field").getD ""`. -/

def digitsToNat (ds : List Char) : Nat :=
  ds.foldl (fun acc c => acc * 10 + (c.toNat - Char.toNat '0')) 0

def jsParseInt (s : String) : Option Int :=
  let cs := (jsTrimLeft s).data
  let signRest : Bool × List Char :=
    match cs with
    | '-' :: t => (true, t)
    | '+' :: t => (false, t)
    | t => (false, t)
  let ds := signRest.2.takeWhile fun c => c.isDigit
  if ds.isEmpty then none
  else if signRest.1 then some (-(digitsToNat ds : Int))
  else some (digitsToNat ds : Int)

/-- The record shape produced by `loadData`'s `.map`; `score_to_par` is
`none` when `parseInt` gave `NaN`. -/
structure RawRecord where
  player_name : String
  event_name : String
  year : Int
  score_to_par : Option Int
deriving DecidableEq, Repr

def toRawRecord (r : List (String × String)) : RawRecord :=
  { player_name := jsTrim ((rowGet r "player_name").getD "")
    event_name := jsTrim ((rowGet r "event_name").getD "")
    year := (jsParseInt ((rowGet r "year").getD "")).getD 0
    score_to_par := jsParseInt ((rowGet r "score_to_par").getD "") }

def filterLoadedRows (rows : List (List (String × String))) : List RawRecord :=
  ((((rows.filter fun r =>
        decide (rowGet r "score_to_par" ≠ some "" ∧
          rowGet r "score_to_par" ≠ none)).filter fun r =>
        decide (jsToLower (jsTrim ((rowGet r "position").getD "")) ∉
          EXCLUDED_POSITIONS)).map toRawRecord).filter fun r =>
        decide (r.player_name ≠ "" ∧ r.score_to_par ≠ none)).filter fun r =>
    decide (MIN_YEAR ≤ r.year ∧ r.year ≤ MAX_YEAR)

/-- Single-pass characterisation of the filter pipeline: a row survives
iff its `score_to_par` field is present, non-empty and numeric, its
normalised position is not excluded, its trimmed `player_name` is
non-empty, and its parsed year is within the configured range; survivors
are exactly the `toRawRecord` projections (trimmed names, parsed
integers). -/
def survivor (r : List (String × String)) : Option RawRecord :=
  if (rowGet r "score_to_par" ≠ some "" ∧ rowGet r "score_to_par" ≠ none) ∧
      jsToLower (jsTrim ((rowGet r "position").getD "")) ∉ EXCLUDED_POSITIONS ∧
      ((toRawRecord r).player_name ≠ "" ∧ (toRawRecord r).score_to_par ≠ none) ∧
      (MIN_YEAR ≤ (toRawRecord r).year ∧ (toRawRecord r).year ≤ MAX_YEAR)
  then some (toRawRecord r) else none

/-! ### Data model (`Puzzle` structures, spec section 3) -/

structure ResultRecord where
  player_name : String
  event_name : String
  year : Int
  score_to_par : Int
deriving DecidableEq, Repr

structure Card where
  event_name : String
  year : Int
  score_to_par : Int
deriving DecidableEq, Repr

structure PlayerEntry where
  player_name : String
  cards : List Card
deriving DecidableEq, Repr

def toCard (e : ResultRecord) : Card :=
  { event_name := e.event_name, year := e.year, score_to_par := e.score_to_par }

/-! ### buildPuzzle (`game.js` lines 77-106)

```js
function buildPuzzle(rows, seed) {
  const rng = mulberry32(seed);
  const byPlayer = new Map();
  for (const r of rows) {
    if (!byPlayer.has(r.player_name)) byPlayer.set(r.player_name, []);
    byPlayer.get(r.player_name).push(r);
  }
  const playersWithEnough = [...byPlayer.entries()].filter(
    ([, events]) => events.length >= CARDS_PER_GOLFER
  );
  if (playersWithEnough.length < GOLFERS_PER_GAME) {
    throw new Error(`Need at least ... Found ...`);
  }
  const shuffled = shuffleWithRng(playersWithEnough, rng);
  const selected = shuffled.slice(0, GOLFERS_PER_GAME);
  const puzzle = selected.map(([player, events]) => {
    const picked = shuffleWithRng(events, rng).slice(0, CARDS_PER_GOLFER);
    return { player_name: player, cards: picked.map((e) => ({...})) };
  });
  return puzzle;
}
```

The JS `Map` preserves key insertion order and each bucket is built by
`push` in row order; `insertRecord`/`groupByPlayer` model exactly that with
an association list.  The single `rng` closure is threaded through the
player shuffle and then through each per-player shuffle in row order
(`buildEntries`). -/

def insertRecord (acc : List (String × List ResultRecord)) (r : ResultRecord) :
    List (String × List ResultRecord) :=
  if r.player_name ∈ acc.map Prod.fst then
    acc.map fun e => if e.1 = r.player_name then (e.1, e.2 ++ [r]) else e
  else acc ++ [(r.player_name, [r])]

def groupByPlayer (rows : List ResultRecord) : List (String × List ResultRecord) :=
  rows.foldl insertRecord []

def buildEntries : Int → List (String × List ResultRecord) → List PlayerEntry × Int
  | s, [] => ([], s)
  | s, e :: rest =>
    let sh := shuffleWithRng e.2 mulberry32Step s
    let tail := buildEntries sh.2 rest
    ({ player_name := e.1, cards := (sh.1.take CARDS_PER_GOLFER).map toCard } :: tail.1,
      tail.2)

/-- The intermediate `playersWithEnough` list of `buildPuzzle`: the player
pool restricted to players whose bucket holds at least `CARDS_PER_GOLFER`
records. -/
def playersWithEnough (rows : List ResultRecord) : List (String × List ResultRecord) :=
  (groupByPlayer rows).filter fun e => decide (CARDS_PER_GOLFER ≤ e.2.length)

def buildPuzzle (rows : List ResultRecord) (seed : Int) :
    Except String (List PlayerEntry) :=
  if (playersWithEnough rows).length < GOLFERS_PER_GAME then
    Except.error ("Need at least " ++ toString GOLFERS_PER_GAME ++ " golfers with " ++
      toString CARDS_PER_GOLFER ++ "+ events. Found " ++
      toString (playersWithEnough rows).length ++ ".")
  else
    let sh := shuffleWithRng (playersWithEnough rows) mulberry32Step seed
    Except.ok (buildEntries sh.2 (sh.1.take GOLFERS_PER_GAME)).1

/-! ### Lemmas about `groupByPlayer` -/

/-- Bucket held by the association list for key `p` (empty if absent). -/
def bucketOf (acc : List (String × List ResultRecord)) (p : String) :
    List ResultRecord :=
  ((acc.find? fun e => decide (e.1 = p)).map Prod.snd).getD []

theorem insertRecord_keys (acc : List (String × List ResultRecord)) (r : ResultRecord) :
    (insertRecord acc r).map Prod.fst =
      if r.player_name ∈ acc.map Prod.fst then acc.map Prod.fst
      else acc.map Prod.fst ++ [r.player_name] := by
  unfold insertRecord
  split
  · rw [List.map_map]
    apply List.map_congr_left
    intro e _
    by_cases h : e.1 = r.player_name <;> simp [h]
  · simp

theorem insertRecord_mem_keys (acc : List (String × List ResultRecord))
    (r : ResultRecord) (p : String) :
    p ∈ (insertRecord acc r).map Prod.fst ↔
      p ∈ acc.map Prod.fst ∨ p = r.player_name := by
  rw [insertRecord_keys]
  split
  · constructor
    · exact fun h => Or.inl h
    · rintro (h | h)
      · exact h
      · subst h; assumption
  · simp [or_comm]

theorem insertRecord_keys_nodup (acc : List (String × List ResultRecord))
    (r : ResultRecord) (h : (acc.map Prod.fst).Nodup) :
    ((insertRecord acc r).map Prod.fst).Nodup := by
  rw [insertRecord_keys]
  split
  · exact h
  · simp only [List.nodup_append, List.nodup_cons, List.nodup_nil]
    refine ⟨h, ⟨by simp, by simp⟩, ?_⟩
    intro a ha
    simp only [List.mem_singleton]
    intro hb
    subst hb
    exact absurd ha (by assumption)

theorem insertRecord_bucket (acc : List (String × List ResultRecord))
    (r : ResultRecord) (p : String) :
    bucketOf (insertRecord acc r) p =
      if r.player_name = p then bucketOf acc p ++ [r] else bucketOf acc p := by
  unfold insertRecord bucketOf
  split
  case isTrue hmem =>
    rw [List.find?_map]
    have hpred : ((fun e : String × List ResultRecord => decide (e.1 = p)) ∘
        fun e : String × List ResultRecord =>
          if e.1 = r.player_name then (e.1, e.2 ++ [r]) else e) =
        fun e : String × List ResultRecord => decide (e.1 = p) := by
      funext e
      by_cases h : e.1 = r.player_name <;> simp [h]
    rw [hpred]
    by_cases hp : r.player_name = p
    · subst hp
      rw [if_pos rfl]
      obtain ⟨e, he, hefst⟩ : ∃ e ∈ acc, e.1 = r.player_name := by
        simpa using hmem
      cases hfind : acc.find? fun e => decide (e.1 = r.player_name) with
      | none =>
        rw [List.find?_eq_none] at hfind
        exact absurd (by simp [hefst] : (decide (e.1 = r.player_name)) = true)
          (hfind e he)
      | some e' =>
        have he' : e'.1 = r.player_name := by
          have := List.find?_some hfind
          simpa using this
        simp [he']
    · rw [if_neg hp]
      cases hfind : acc.find? fun e => decide (e.1 = p) with
      | none => simp
      | some e' =>
        have he' : e'.1 = p := by
          have := List.find?_some hfind
          simpa using this
        have : ¬ e'.1 = r.player_name := by rw [he']; exact fun h => hp h.symm
        simp [this]
  case isFalse hmem =>
    rw [List.find?_append]
    by_cases hp : r.player_name = p
    · subst hp
      have hnone : (acc.find? fun e => decide (e.1 = r.player_name)) = none := by
        rw [List.find?_eq_none]
        intro e he
        simp only [decide_eq_true_eq]
        intro hcontra
        exact hmem (by simpa [hcontra] using List.mem_map_of_mem Prod.fst he)
      rw [if_pos rfl, hnone]
      simp
    · rw [if_neg hp]
      have hsingle : (([(r.player_name, [r])] :
          List (String × List ResultRecord)).find? fun e => decide (e.1 = p)) = none := by
        simp [fun h => hp h]
      rw [hsingle]
      simp

theorem groupByPlayer_aux_bucket (rows : List ResultRecord) :
    ∀ (acc : List (String × List ResultRecord)) (p : String),
      bucketOf (rows.foldl insertRecord acc) p =
        bucketOf acc p ++ rows.filter fun r => decide (r.player_name = p) := by
  induction rows with
  | nil => intro acc p; simp
  | cons r t ih =>
    intro acc p
    rw [List.foldl_cons, ih, insertRecord_bucket]
    by_cases hp : r.player_name = p
    · rw [if_pos hp, List.filter_cons_of_pos (by simpa using hp), List.append_assoc]
      simp
    · rw [if_neg hp, List.filter_cons_of_neg (by simpa using hp)]

theorem groupByPlayer_bucket (rows : List ResultRecord) (p : String) :
    bucketOf (groupByPlayer rows) p =
      rows.filter fun r => decide (r.player_name = p) := by
  rw [groupByPlayer, groupByPlayer_aux_bucket]
  rfl

theorem groupByPlayer_aux_nodup (rows : List ResultRecord) :
    ∀ (acc : List (String × List ResultRecord)),
      (acc.map Prod.fst).Nodup → ((rows.foldl insertRecord acc).map Prod.fst).Nodup := by
  induction rows with
  | nil => intro acc h; exact h
  | cons r t ih =>
    intro acc h
    exact ih _ (insertRecord_keys_nodup acc r h)

theorem groupByPlayer_keys_nodup (rows : List ResultRecord) :
    ((groupByPlayer rows).map Prod.fst).Nodup :=
  groupByPlayer_aux_nodup rows [] (by simp)

theorem groupByPlayer_aux_mem (rows : List ResultRecord) :
    ∀ (acc : List (String × List ResultRecord)) (p : String),
      p ∈ (rows.foldl insertRecord acc).map Prod.fst ↔
        p ∈ acc.map Prod.fst ∨ ∃ r ∈ rows, r.player_name = p := by
  induction rows with
  | nil => intro acc p; simp
  | cons r t ih =>
    intro acc p
    rw [List.foldl_cons, ih, insertRecord_mem_keys]
    constructor
    · rintro ((h | h) | ⟨r', hr', hp⟩)
      · exact Or.inl h
      · exact Or.inr ⟨r, List.mem_cons_self r t, h.symm⟩
      · exact Or.inr ⟨r', List.mem_cons_of_mem r hr', hp⟩
    · rintro (h | ⟨r', hr', hp⟩)
      · exact Or.inl (Or.inl h)
      · rcases List.mem_cons.mp hr' with h | h
        · subst h; exact Or.inl (Or.inr hp.symm)
        · exact Or.inr ⟨r', h, hp⟩

theorem groupByPlayer_mem_keys (rows : List ResultRecord) (p : String) :
    p ∈ (groupByPlayer rows).map Prod.fst ↔ ∃ r ∈ rows, r.player_name = p := by
  rw [groupByPlayer, groupByPlayer_aux_mem]
  simp

/-- In an association list with nodup keys, `find?` on an entry's own key
returns that entry. -/
theorem find?_eq_of_mem_of_nodup :
    ∀ (acc : List (String × List ResultRecord)),
      (acc.map Prod.fst).Nodup →
      ∀ e ∈ acc, (acc.find? fun x => decide (x.1 = e.1)) = some e := by
  intro acc
  induction acc with
  | nil => intro _ e he; cases he
  | cons a t ih =>
    intro hnodup e he
    rw [List.map_cons, List.nodup_cons] at hnodup
    rcases List.mem_cons.mp he with h | h
    · subst h
      simp [List.find?_cons]
    · have hne : ¬ a.1 = e.1 := by
        intro hcontra
        exact hnodup.1 (hcontra ▸ List.mem_map_of_mem Prod.fst h)
      rw [List.find?_cons_of_neg _ (by simp [hne])]
      exact ih hnodup.2 e h

/-- Every entry of `groupByPlayer rows` is the bucket of its own key, which
is the sublist of `rows` carrying that player name, in input order. -/
theorem groupByPlayer_entry_eq (rows : List ResultRecord)
    (e : String × List ResultRecord) (he : e ∈ groupByPlayer rows) :
    e.2 = rows.filter fun r => decide (r.player_name = e.1) := by
  have hfind := find?_eq_of_mem_of_nodup (groupByPlayer rows)
    (groupByPlayer_keys_nodup rows) e he
  have hbucket := groupByPlayer_bucket rows e.1
  rw [bucketOf, hfind] at hbucket
  simpa using hbucket

/-- Number of distinct players that have at least `CARDS_PER_GOLFER`
qualifying records in the input, stated without reference to the grouping
map (this is the quantity the spec's failure condition talks about). -/
def qualifyingPlayerCount (rows : List ResultRecord) : Nat :=
  (((rows.map ResultRecord.player_name).dedup).filter fun p =>
    decide (CARDS_PER_GOLFER ≤
      (rows.filter fun r => decide (r.player_name = p)).length)).length

theorem length_filter_comp_fst (G : List (String × List ResultRecord))
    (φ : String → Bool) :
    (G.filter (φ ∘ Prod.fst)).length = ((G.map Prod.fst).filter φ).length := by
  rw [List.filter_map, List.length_map]

theorem playersWithEnough_length_eq (rows : List ResultRecord) :
    (playersWithEnough rows).length = qualifyingPlayerCount rows := by
  classical
  rw [playersWithEnough, qualifyingPlayerCount]
  have hcongr : (groupByPlayer rows).filter
      (fun e => decide (CARDS_PER_GOLFER ≤ e.2.length)) =
      (groupByPlayer rows).filter
      ((fun p => decide (CARDS_PER_GOLFER ≤
        (rows.filter fun r => decide (r.player_name = p)).length)) ∘ Prod.fst) := by
    apply List.filter_congr
    intro e he
    have := groupByPlayer_entry_eq rows e he
    simp only [Function.comp]
    rw [← this]
  rw [hcongr, length_filter_comp_fst]
  have hperm : ((groupByPlayer rows).map Prod.fst).Perm
      (rows.map ResultRecord.player_name).dedup := by
    rw [List.perm_ext_iff_of_nodup (groupByPlayer_keys_nodup rows)
      (List.nodup_dedup _)]
    intro p
    rw [groupByPlayer_mem_keys, List.mem_dedup, List.mem_map]
  exact (hperm.filter _).length_eq

/-! ### Lemmas about `buildEntries` -/

theorem buildEntries_names :
    ∀ (sel : List (String × List ResultRecord)) (s : Int),
      (buildEntries s sel).1.map PlayerEntry.player_name = sel.map Prod.fst := by
  intro sel
  induction sel with
  | nil => intro s; rfl
  | cons e rest ih =>
    intro s
    simp only [buildEntries, List.map_cons, List.map]
    rw [ih]

theorem buildEntries_length
    (sel : List (String × List ResultRecord)) (s : Int) :
    (buildEntries s sel).1.length = sel.length := by
  have := buildEntries_names sel s
  have h1 := congrArg List.length this
  simpa using h1

theorem buildEntries_cards :
    ∀ (sel : List (String × List ResultRecord)) (s : Int),
      ∀ pe ∈ (buildEntries s sel).1,
        ∃ e ∈ sel, pe.player_name = e.1 ∧
          pe.cards.length = min CARDS_PER_GOLFER e.2.length := by
  intro sel
  induction sel with
  | nil => intro s pe hpe; cases hpe
  | cons e rest ih =>
    intro s pe hpe
    simp only [buildEntries] at hpe
    rcases List.mem_cons.mp hpe with h | h
    · subst h
      refine ⟨e, List.mem_cons_self e rest, rfl, ?_⟩
      simp only [List.length_map, List.length_take]
      rw [shuffleWithRng_length]
    · obtain ⟨e', he', hname, hlen⟩ := ih _ pe h
      exact ⟨e', List.mem_cons_of_mem e he', hname, hlen⟩

/-! ### Concrete sample data (used by witnesses) -/

/-- Four players with four qualifying records each. -/
def sampleRows : List ResultRecord :=
  [⟨"Alan", "E1", 2020, -3⟩, ⟨"Alan", "E2", 2021, 0⟩,
   ⟨"Alan", "E3", 2022, 4⟩, ⟨"Alan", "E4", 2023, -1⟩,
   ⟨"Bob", "E1", 2020, 2⟩, ⟨"Bob", "E2", 2021, -5⟩,
   ⟨"Bob", "E3", 2022, 1⟩, ⟨"Bob", "E4", 2023, 7⟩,
   ⟨"Cara", "E1", 2020, 0⟩, ⟨"Cara", "E2", 2021, 3⟩,
   ⟨"Cara", "E3", 2022, -2⟩, ⟨"Cara", "E4", 2023, 5⟩,
   ⟨"Dana", "E1", 2020, -4⟩, ⟨"Dana", "E2", 2021, 6⟩,
   ⟨"Dana", "E3", 2022, -1⟩, ⟨"Dana", "E4", 2023, 0⟩]

/-- The concrete Puzzle that `buildPuzzle sampleRows 7` evaluates to
(cross-checked against an independent simulation of the JS semantics). -/
def samplePuzzle : List PlayerEntry :=
  [{ player_name := "Cara",
     cards := [⟨"E4", 2023, 5⟩, ⟨"E1", 2020, 0⟩, ⟨"E2", 2021, 3⟩, ⟨"E3", 2022, -2⟩] },
   { player_name := "Bob",
     cards := [⟨"E3", 2022, 1⟩, ⟨"E4", 2023, 7⟩, ⟨"E1", 2020, 2⟩, ⟨"E2", 2021, -5⟩] },
   { player_name := "Dana",
     cards := [⟨"E2", 2021, 6⟩, ⟨"E4", 2023, 0⟩, ⟨"E1", 2020, -4⟩, ⟨"E3", 2022, -1⟩] },
   { player_name := "Alan",
     cards := [⟨"E3", 2022, 4⟩, ⟨"E1", 2020, -3⟩, ⟨"E2", 2021, 0⟩, ⟨"E4", 2023, -1⟩] }]

/-! ### Claim theorems: builder -/

/-- C1: For every fixed records sequence and every integer seed, two
independent calls to `buildPuzzle(records, seed)` produce structurally
identical Puzzles.  In the embedding `buildPuzzle` is a pure function of
`(rows, seed)` — the only randomness consumed is the mulberry32 state
created from `seed` and threaded explicitly through the call — so two
calls with equal arguments are propositionally equal. -/
theorem buildPuzzle_deterministic (rows : List ResultRecord) (seed1 seed2 : Int)
    (h : seed1 = seed2) : buildPuzzle rows seed1 = buildPuzzle rows seed2 := by
  rw [h]

theorem buildPuzzle_deterministic_witness :
    buildPuzzle sampleRows 1 = buildPuzzle sampleRows 1 :=
  buildPuzzle_deterministic sampleRows 1 1 rfl

/-- C2: `buildPuzzle` fails (with the insufficient-data error) exactly when
fewer than 4 distinct players have at least 4 qualifying records; players
with fewer than 4 records are excluded before the count check
(`qualifyingPlayerCount` counts only players whose records number at least
`CARDS_PER_GOLFER = 4`); otherwise it returns a Puzzle. -/
theorem buildPuzzle_insufficient_data (rows : List ResultRecord) (seed : Int) :
    ((∃ msg, buildPuzzle rows seed = Except.error msg) ↔
      qualifyingPlayerCount rows < GOLFERS_PER_GAME) ∧
    ((∃ puzzle, buildPuzzle rows seed = Except.ok puzzle) ↔
      GOLFERS_PER_GAME ≤ qualifyingPlayerCount rows) := by
  have hlen := playersWithEnough_length_eq rows
  by_cases h : (playersWithEnough rows).length < GOLFERS_PER_GAME
  · rw [buildPuzzle, if_pos h]
    constructor
    · exact iff_of_true ⟨_, rfl⟩ (hlen ▸ h)
    · apply iff_of_false
      · rintro ⟨puzzle, hp⟩
        exact Except.noConfusion hp
      · omega
  · rw [buildPuzzle, if_neg h]
    constructor
    · apply iff_of_false
      · rintro ⟨msg, hm⟩
        exact Except.noConfusion hm
      · omega
    · exact iff_of_true ⟨_, rfl⟩ (by omega)

theorem buildPuzzle_insufficient_data_witness :
    ((∃ msg, buildPuzzle [] 0 = Except.error msg) ↔
      qualifyingPlayerCount [] < GOLFERS_PER_GAME) ∧
    ((∃ puzzle, buildPuzzle [] 0 = Except.ok puzzle) ↔
      GOLFERS_PER_GAME ≤ qualifyingPlayerCount []) :=
  buildPuzzle_insufficient_data [] 0

/-- C3: every Puzzle produced by a successful `buildPuzzle` call has
exactly 4 `PlayerEntry` items and each entry has exactly 4 `Card`s. -/
theorem buildPuzzle_ok_shape (rows : List ResultRecord) (seed : Int)
    (puzzle : List PlayerEntry) (h : buildPuzzle rows seed = Except.ok puzzle) :
    puzzle.length = 4 ∧ ∀ pe ∈ puzzle, pe.cards.length = 4 := by
  rw [buildPuzzle] at h
  by_cases hlt : (playersWithEnough rows).length < GOLFERS_PER_GAME
  · rw [if_pos hlt] at h
    exact Except.noConfusion h
  · rw [if_neg hlt] at h
    have hp : (buildEntries
        (shuffleWithRng (playersWithEnough rows) mulberry32Step seed).2
        ((shuffleWithRng (playersWithEnough rows) mulberry32Step seed).1.take
          GOLFERS_PER_GAME)).1 = puzzle := by
      simpa using h
    subst hp
    constructor
    · rw [buildEntries_length, List.length_take, shuffleWithRng_length]
      have hge : GOLFERS_PER_GAME ≤ (playersWithEnough rows).length := by omega
      rw [Nat.min_eq_left hge]
      rfl
    · intro pe hpe
      obtain ⟨e, he, _, hlen⟩ := buildEntries_cards _ _ pe hpe
      have hmem1 : e ∈ (shuffleWithRng (playersWithEnough rows) mulberry32Step seed).1 :=
        (List.take_sublist _ _).subset he
      have hmem2 : e ∈ playersWithEnough rows :=
        (shuffleWithRng_perm _ _ _).subset hmem1
      have hq : CARDS_PER_GOLFER ≤ e.2.length := by
        have := List.of_mem_filter hmem2
        simpa using this
      rw [hlen, Nat.min_eq_left hq]
      rfl

theorem buildPuzzle_ok_shape_witness :
    buildPuzzle sampleRows 7 = Except.ok samplePuzzle ∧
    (samplePuzzle.length = 4 ∧ ∀ pe ∈ samplePuzzle, pe.cards.length = 4) :=
  ⟨by rfl, buildPuzzle_ok_shape sampleRows 7 samplePuzzle (by rfl)⟩

/-- C7: the 4 player names of a Puzzle are pairwise distinct: the grouping
map is keyed by `player_name`, its key list is nodup, and selection only
reorders and truncates it. -/
theorem buildPuzzle_ok_distinct_players (rows : List ResultRecord) (seed : Int)
    (puzzle : List PlayerEntry) (h : buildPuzzle rows seed = Except.ok puzzle) :
    (puzzle.map PlayerEntry.player_name).Nodup := by
  rw [buildPuzzle] at h
  by_cases hlt : (playersWithEnough rows).length < GOLFERS_PER_GAME
  · rw [if_pos hlt] at h
    exact Except.noConfusion h
  · rw [if_neg hlt] at h
    have hp : (buildEntries
        (shuffleWithRng (playersWithEnough rows) mulberry32Step seed).2
        ((shuffleWithRng (playersWithEnough rows) mulberry32Step seed).1.take
          GOLFERS_PER_GAME)).1 = puzzle := by
      simpa using h
    subst hp
    rw [buildEntries_names]
    have hkeysG : ((groupByPlayer rows).map Prod.fst).Nodup :=
      groupByPlayer_keys_nodup rows
    have hsub : List.Sublist ((playersWithEnough rows).map Prod.fst)
        ((groupByPlayer rows).map Prod.fst) :=
      (List.filter_sublist _).map Prod.fst
    have hkeysF : ((playersWithEnough rows).map Prod.fst).Nodup :=
      hkeysG.sublist hsub
    have hperm : (((shuffleWithRng (playersWithEnough rows) mulberry32Step seed).1).map
        Prod.fst).Perm ((playersWithEnough rows).map Prod.fst) :=
      (shuffleWithRng_perm _ _ _).map _
    have hkeysSh := hperm.symm.nodup hkeysF
    rw [List.map_take]
    exact hkeysSh.sublist (List.take_sublist _ _)

theorem buildPuzzle_ok_distinct_players_witness :
    (samplePuzzle.map PlayerEntry.player_name).Nodup :=
  buildPuzzle_ok_distinct_players sampleRows 7 samplePuzzle (by rfl)

/-! ### Claim theorems: shuffle and RNG -/

/-- C4: for every input sequence and every generator (any state type `σ`
and step function), the shuffle returns a permutation of the input and
consumes exactly one draw per loop iteration, i.e. `length - 1` draws in
total.  The iteration order (last index down to 1) and the swap index
`floor(draw * (i + 1))` are the definition of `fisherYatesAux`; the input
list itself is untouched (the embedding is pure and operates on a copy,
like the JS `const out = [...arr]`). -/
theorem shuffleWithRng_spec {α σ : Type} (arr : List α) (step : σ → σ × Nat) (s : σ) :
    (shuffleWithRng arr step s).1.Perm arr ∧
    (shuffleWithRng arr step s).2 = rngIterate step (arr.length - 1) s :=
  ⟨shuffleWithRng_perm arr step s, shuffleWithRng_state arr step s⟩

theorem shuffleWithRng_spec_witness :
    ((shuffleWithRng [1, 2, 3, 4, 5] mulberry32Step 7).1.Perm [1, 2, 3, 4, 5]) ∧
    (shuffleWithRng [1, 2, 3, 4, 5] mulberry32Step 7).2 =
      rngIterate mulberry32Step 4 7 :=
  shuffleWithRng_spec [1, 2, 3, 4, 5] mulberry32Step 7

theorem mulberry32Step_fst (s : Int) : (mulberry32Step s).1 = s + 0x6d2b79f5 := rfl

theorem mulberry32Step_out_lt (s : Int) : (mulberry32Step s).2 < U32 := by
  have hU : (2 : Nat) ^ 32 = U32 := by norm_num [U32]
  have h2 : ∀ x : Nat, x % U32 < 2 ^ 32 := fun x =>
    hU ▸ Nat.mod_lt x (by norm_num [U32])
  unfold mulberry32Step
  dsimp only
  rw [← hU]
  apply Nat.xor_lt_two_pow
  · exact Nat.xor_lt_two_pow (h2 _) (h2 _)
  · exact Nat.lt_of_le_of_lt
      (by rw [Nat.shiftRight_eq_div_pow]; exact Nat.div_le_self _ _)
      (Nat.xor_lt_two_pow (h2 _) (h2 _))

theorem mulberry32StateN_eq (seed : Int) (n : Nat) :
    mulberry32StateN seed n = seed + (n : Int) * 0x6d2b79f5 := by
  induction n with
  | zero => simp [mulberry32StateN]
  | succ n ih =>
    show (mulberry32Step (mulberry32StateN seed n)).1 = _
    rw [mulberry32Step_fst, ih]
    push_cast
    ring

/-- C5: for every 32-bit unsigned seed, every value drawn from the
mulberry32 generator lies in `[0, 1)` (it is a 32-bit numerator divided by
`2^32`), and the state advances by exactly the fixed constant
`0x6d2b79f5` per draw; the whole draw sequence is a pure function of the
seed (the embedding consumes no other input). -/
theorem mulberry32_unit_interval (seed : Nat) (_h : seed < 2 ^ 32) (n : Nat) :
    (0 ≤ mulberry32DrawVal (seed : Int) n ∧ mulberry32DrawVal (seed : Int) n < 1) ∧
    mulberry32StateN (seed : Int) n = (seed : Int) + (n : Int) * 0x6d2b79f5 := by
  refine ⟨⟨?_, ?_⟩, mulberry32StateN_eq _ n⟩
  · unfold mulberry32DrawVal
    positivity
  · unfold mulberry32DrawVal
    rw [div_lt_one (by norm_num [U32])]
    have hlt : mulberry32Draw (seed : Int) n < U32 := mulberry32Step_out_lt _
    exact_mod_cast hlt

theorem mulberry32_unit_interval_witness :
    (42 : Nat) < 2 ^ 32 ∧
    ((0 ≤ mulberry32DrawVal ((42 : Nat) : Int) 0 ∧
        mulberry32DrawVal ((42 : Nat) : Int) 0 < 1) ∧
      mulberry32StateN ((42 : Nat) : Int) 0 =
        ((42 : Nat) : Int) + ((0 : Nat) : Int) * 0x6d2b79f5) :=
  ⟨by norm_num, mulberry32_unit_interval 42 (by norm_num) 0⟩

/-! ### Presentation helpers (`game.js` lines 130-150)

```js
function formatScore(n) {
  if (n === 0) return 'E';
  return n > 0 ? `+${n}` : String(n);
}
```

`toString : Int → String` is the exact model of JS `String(n)`/`${n}` for
(safe-range) integer values: decimal digits with a leading minus sign for
negative numbers. -/

def formatScore (n : Int) : String :=
  if n = 0 then "E"
  else if 0 < n then "+" ++ toString n
  else toString n

def greenShades : List String :=
  ["hsl(152, 42%, 52%)", "hsl(152, 38%, 58%)", "hsl(152, 35%, 64%)"]
def yellowShades : List String :=
  ["hsl(48, 52%, 62%)", "hsl(48, 48%, 68%)", "hsl(48, 44%, 74%)"]
def redShades : List String :=
  ["hsl(0, 48%, 58%)", "hsl(0, 52%, 54%)", "hsl(0, 55%, 50%)"]

/--
```js
function getScoreBackgroundColor(scoreToPar) {
  if (scoreToPar <= -10) return greenShades[0];
  if (scoreToPar <= -4) return greenShades[1];
  if (scoreToPar <= -1) return greenShades[2];
  if (scoreToPar <= 0) return yellowShades[0];
  if (scoreToPar <= 2) return yellowShades[1];
  if (scoreToPar <= 5) return yellowShades[2];
  if (scoreToPar <= 9) return redShades[2];
  if (scoreToPar <= 15) return redShades[1];
  return redShades[0];
}
```
(`getD i ""` is in-range array indexing here.) -/
def getScoreBackgroundColor (scoreToPar : Int) : String :=
  if scoreToPar ≤ -10 then greenShades.getD 0 ""
  else if scoreToPar ≤ -4 then greenShades.getD 1 ""
  else if scoreToPar ≤ -1 then greenShades.getD 2 ""
  else if scoreToPar ≤ 0 then yellowShades.getD 0 ""
  else if scoreToPar ≤ 2 then yellowShades.getD 1 ""
  else if scoreToPar ≤ 5 then yellowShades.getD 2 ""
  else if scoreToPar ≤ 9 then redShades.getD 2 ""
  else if scoreToPar ≤ 15 then redShades.getD 1 ""
  else redShades.getD 0 ""

/-- Band index of the returned color: 0 = green (coolest), 1 = yellow,
2 = red (warmest). -/
def colorBand (s : Int) : Nat :=
  if getScoreBackgroundColor s ∈ greenShades then 0
  else if getScoreBackgroundColor s ∈ yellowShades then 1
  else 2

theorem color_mem_green (s : Int) (h : s ≤ -1) :
    getScoreBackgroundColor s ∈ greenShades := by
  unfold getScoreBackgroundColor
  split_ifs <;> decide

theorem color_mem_yellow (s : Int) (h0 : 0 ≤ s) (h5 : s ≤ 5) :
    getScoreBackgroundColor s ∈ yellowShades := by
  unfold getScoreBackgroundColor
  split_ifs <;> first | decide | omega

theorem color_mem_red (s : Int) (h : 6 ≤ s) :
    getScoreBackgroundColor s ∈ redShades := by
  unfold getScoreBackgroundColor
  split_ifs <;> first | decide | omega

theorem color_mem_nine (s : Int) :
    getScoreBackgroundColor s ∈ greenShades ++ yellowShades ++ redShades := by
  unfold getScoreBackgroundColor
  split_ifs <;> decide

theorem colorBand_green (s : Int) (h : s ≤ -1) : colorBand s = 0 := by
  unfold colorBand
  rw [if_pos (color_mem_green s h)]

theorem colorBand_yellow (s : Int) (h0 : 0 ≤ s) (h5 : s ≤ 5) : colorBand s = 1 := by
  have hy := color_mem_yellow s h0 h5
  unfold colorBand
  rw [if_neg, if_pos hy]
  intro hg
  rcases List.mem_cons.mp hy with h | h
  · rw [h] at hg; exact absurd hg (by decide)
  rcases List.mem_cons.mp h with h | h
  · rw [h] at hg; exact absurd hg (by decide)
  rcases List.mem_cons.mp h with h | h
  · rw [h] at hg; exact absurd hg (by decide)
  · cases h

theorem colorBand_red (s : Int) (h : 6 ≤ s) : colorBand s = 2 := by
  have hr := color_mem_red s h
  have hdisj : ∀ x, x ∈ redShades → x ∉ greenShades ∧ x ∉ yellowShades := by
    intro x hx
    rcases List.mem_cons.mp hx with h' | h'
    · rw [h']; exact ⟨by decide, by decide⟩
    rcases List.mem_cons.mp h' with h' | h'
    · rw [h']; exact ⟨by decide, by decide⟩
    rcases List.mem_cons.mp h' with h' | h'
    · rw [h']; exact ⟨by decide, by decide⟩
    · cases h'
  obtain ⟨hng, hny⟩ := hdisj _ hr
  unfold colorBand
  rw [if_neg hng, if_neg hny]

theorem colorBand_mono (s1 s2 : Int) (h : s1 ≤ s2) : colorBand s1 ≤ colorBand s2 := by
  by_cases h1 : s1 ≤ -1
  · rw [colorBand_green s1 h1]
    exact Nat.zero_le _
  · by_cases h2 : s2 ≤ 5
    · rw [colorBand_yellow s1 (by omega) (by omega), colorBand_yellow s2 (by omega) h2]
    · by_cases h3 : s1 ≤ 5
      · rw [colorBand_yellow s1 (by omega) h3, colorBand_red s2 (by omega)]
        omega
      · rw [colorBand_red s1 (by omega), colorBand_red s2 (by omega)]

/-- C8: the card color is a pure total function of `score_to_par`: it
always returns one of the nine fixed shade strings; every score `≤ -1`
gets a green shade, every score in `0..5` a yellow shade, every score
`≥ 6` a red shade; and the band (green < yellow < red) is monotone in the
score, so a more negative score never gets a warmer band than a less
negative one. -/
theorem getScoreBackgroundColor_bands (s s1 s2 : Int) (h12 : s1 ≤ s2) :
    getScoreBackgroundColor s ∈ greenShades ++ yellowShades ++ redShades ∧
    (s ≤ -1 → getScoreBackgroundColor s ∈ greenShades) ∧
    (0 ≤ s ∧ s ≤ 5 → getScoreBackgroundColor s ∈ yellowShades) ∧
    (6 ≤ s → getScoreBackgroundColor s ∈ redShades) ∧
    colorBand s1 ≤ colorBand s2 :=
  ⟨color_mem_nine s, color_mem_green s,
    fun h => color_mem_yellow s h.1 h.2, color_mem_red s,
    colorBand_mono s1 s2 h12⟩

theorem getScoreBackgroundColor_bands_witness :
    (getScoreBackgroundColor 0 ∈ greenShades ++ yellowShades ++ redShades ∧
      ((0 : Int) ≤ -1 → getScoreBackgroundColor 0 ∈ greenShades) ∧
      ((0 : Int) ≤ 0 ∧ (0 : Int) ≤ 5 → getScoreBackgroundColor 0 ∈ yellowShades) ∧
      ((6 : Int) ≤ 0 → getScoreBackgroundColor 0 ∈ redShades) ∧
      colorBand (-5) ≤ colorBand 3) :=
  getScoreBackgroundColor_bands 0 (-5) 3 (by norm_num)

/-- C9: `formatScore` is total on the integers; it returns `"E"` exactly
for 0, `'+'` followed by the decimal digits for positive arguments
(equivalently, the output starts with `'+'` exactly when the argument is
positive), and the plain decimal rendering (leading minus sign) for
negative arguments. -/
theorem formatScore_spec (n : Int) :
    (formatScore n = "E" ↔ n = 0) ∧
    (0 < n → formatScore n = "+" ++ toString n) ∧
    (n < 0 → formatScore n = toString n) ∧
    ((formatScore n).data.head? = some '+' ↔ 0 < n) := by
  rcases lt_trichotomy n 0 with hneg | hzero | hpos
  · have hfmt : formatScore n = toString n := by
      unfold formatScore
      rw [if_neg (by omega), if_neg (by omega)]
    have hhead : (toString n).data.head? = some '-' := by
      cases n with
      | ofNat k => rw [Int.ofNat_eq_coe] at hneg; omega
      | negSucc m =>
        show (("-" ++ toString (m + 1)).data).head? = some '-'
        rw [String.data_append]
        rfl
    refine ⟨iff_of_false ?_ (by omega), fun h => absurd h (by omega),
      fun _ => hfmt, iff_of_false ?_ (by omega)⟩
    · intro hEq
      rw [hfmt] at hEq
      rw [hEq] at hhead
      exact absurd hhead (by decide)
    · intro hEq
      rw [hfmt] at hEq
      rw [hEq] at hhead
      exact absurd hhead (by decide)
  · subst hzero
    refine ⟨iff_of_true rfl rfl, fun h => absurd h (by omega),
      fun h => absurd h (by omega), iff_of_false ?_ (by omega)⟩
    intro hEq
    exact absurd hEq (by decide)
  · have hfmt : formatScore n = "+" ++ toString n := by
      unfold formatScore
      rw [if_neg (by omega), if_pos hpos]
    have hhead : (formatScore n).data.head? = some '+' := by
      rw [hfmt, String.data_append]
      rfl
    refine ⟨iff_of_false ?_ (by omega), fun _ => hfmt,
      fun h => absurd h (by omega), iff_of_true hhead hpos⟩
    intro hEq
    rw [hEq] at hhead
    exact absurd hhead (by decide)

/-! ### Claim theorems: loadData filtering and parseCSV -/

/-- A CSV row whose `score_to_par` is present and numeric, whose position
is not excluded, and whose year is in range — but whose `player_name` is
empty. -/
def badRow : List (String × String) :=
  [("player_name", ""), ("event_name", "Masters"), ("year", "2021"),
   ("score_to_par", "1"), ("position", "3")]

/-- C6 (counterexample): `badRow` satisfies none of the three drop
conditions named by the claim — its `score_to_par` is present, non-empty
and parses to the integer 1, its normalised finish position is not in the
exclusion set, and its parsed year 2021 lies in `[2020, 2025]` — yet the
filtering stage drops it (because its trimmed `player_name` is empty), so
not "all other records survive". -/
theorem loadData_filter_counterexample :
    (rowGet badRow "score_to_par" ≠ some "" ∧
      rowGet badRow "score_to_par" ≠ none) ∧
    jsParseInt ((rowGet badRow "score_to_par").getD "") = some 1 ∧
    jsToLower (jsTrim ((rowGet badRow "position").getD "")) ∉ EXCLUDED_POSITIONS ∧
    (jsParseInt ((rowGet badRow "year").getD "")).getD 0 = 2021 ∧
    (MIN_YEAR ≤ (2021 : Int) ∧ (2021 : Int) ≤ MAX_YEAR) ∧
    filterLoadedRows [badRow] = [] := by
  decide

/-- C6 (amended): the pre-Builder filtering stage drops every record whose
`score_to_par` is missing, empty or non-numeric, every record whose
trimmed lower-cased position is in the exclusion set, every record whose
parsed year is outside `[MIN_YEAR, MAX_YEAR]`, and additionally every
record whose trimmed `player_name` is empty; all other records survive as
`toRawRecord` projections — `player_name`/`event_name` trimmed, `year`
and `score_to_par` parsed as integers. -/
theorem filterLoadedRows_eq (rows : List (List (String × String))) :
    filterLoadedRows rows = rows.filterMap survivor := by
  induction rows with
  | nil => rfl
  | cons r t ih =>
    rw [List.filterMap_cons]
    by_cases c1 : rowGet r "score_to_par" ≠ some "" ∧
        rowGet r "score_to_par" ≠ none
    case neg =>
      have hs : survivor r = none := by
        rw [survivor, if_neg]
        intro hcontra
        exact c1 hcontra.1
      rw [hs, ← ih]
      unfold filterLoadedRows
      rw [List.filter_cons_of_neg (by simpa using c1)]
    case pos =>
      by_cases c2 : jsToLower (jsTrim ((rowGet r "position").getD "")) ∉
          EXCLUDED_POSITIONS
      case neg =>
        have hs : survivor r = none := by
          rw [survivor, if_neg]
          intro hcontra
          exact c2 hcontra.2.1
        rw [hs, ← ih]
        unfold filterLoadedRows
        rw [List.filter_cons_of_pos (by simpa using c1),
          List.filter_cons_of_neg (by simpa using c2)]
      case pos =>
        by_cases c3 : (toRawRecord r).player_name ≠ "" ∧
            (toRawRecord r).score_to_par ≠ none
        case neg =>
          have hs : survivor r = none := by
            rw [survivor, if_neg]
            intro hcontra
            exact c3 hcontra.2.2.1
          rw [hs, ← ih]
          unfold filterLoadedRows
          rw [List.filter_cons_of_pos (by simpa using c1),
            List.filter_cons_of_pos (by simpa using c2), List.map_cons,
            List.filter_cons_of_neg (by simpa using c3)]
        case pos =>
          by_cases c4 : MIN_YEAR ≤ (toRawRecord r).year ∧
              (toRawRecord r).year ≤ MAX_YEAR
          case neg =>
            have hs : survivor r = none := by
              rw [survivor, if_neg]
              intro hcontra
              exact c4 hcontra.2.2.2
            rw [hs, ← ih]
            unfold filterLoadedRows
            rw [List.filter_cons_of_pos (by simpa using c1),
              List.filter_cons_of_pos (by simpa using c2), List.map_cons,
              List.filter_cons_of_pos (by simpa using c3),
              List.filter_cons_of_neg (by simpa using c4)]
          case pos =>
            have hs : survivor r = some (toRawRecord r) := by
              rw [survivor, if_pos ⟨c1, c2, c3, c4⟩]
            rw [hs, ← ih]
            unfold filterLoadedRows
            rw [List.filter_cons_of_pos (by simpa using c1),
              List.filter_cons_of_pos (by simpa using c2), List.map_cons,
              List.filter_cons_of_pos (by simpa using c3),
              List.filter_cons_of_pos (by simpa using c4)]

/-! ### parseCSV lemmas (C10) -/

theorem buildRow_aux (vals : List String) :
    ∀ (l : List (Nat × String)) (acc : List (String × String)),
      (l.map Prod.snd).Nodup →
      (∀ jh ∈ l, jh.2 ∉ acc.map Prod.fst) →
      l.foldl (fun row jh => setField row jh.2 (vals.getD jh.1 "")) acc =
        acc ++ l.map fun jh => (jh.2, vals.getD jh.1 "") := by
  intro l
  induction l with
  | nil => intro acc _ _; simp
  | cons jh l' ih =>
    intro acc hnodup hfresh
    rw [List.map_cons, List.nodup_cons] at hnodup
    rw [List.foldl_cons]
    have hset : setField acc jh.2 (vals.getD jh.1 "") =
        acc ++ [(jh.2, vals.getD jh.1 "")] := by
      rw [setField, if_neg (hfresh jh (List.mem_cons_self _ _))]
    have hrec := ih (acc ++ [(jh.2, vals.getD jh.1 "")]) hnodup.2 ?side
    case side =>
      intro e he
      rw [List.map_append, List.mem_append]
      rintro (hmem | hmem)
      · exact hfresh e (List.mem_cons_of_mem _ he) hmem
      · have : e.2 = jh.2 := by simpa using hmem
        exact hnodup.1 (this ▸ List.mem_map_of_mem Prod.snd he)
    rw [hset, hrec, List.map_cons, List.append_assoc]
    rfl

theorem buildRow_eq_of_nodup (headers vals : List String) (h : headers.Nodup) :
    buildRow headers vals = headers.enum.map fun jh => (jh.2, vals.getD jh.1 "") := by
  rw [buildRow]
  refine buildRow_aux vals headers.enum [] ?_ (by simp)
  have hsnd : headers.enum.map Prod.snd = headers := List.enumFrom_map_snd 0 headers
  rw [hsnd]
  exact h

theorem find?_enumFrom_eq (vals : List String) :
    ∀ (headers : List String) (n j : Nat) (name : String),
      headers.Nodup → headers[j]? = some name →
      ((headers.enumFrom n).map fun jh => (jh.2, vals.getD jh.1 "")).find?
          (fun e => decide (e.1 = name)) = some (name, vals.getD (n + j) "") := by
  intro headers
  induction headers with
  | nil => intro n j name _ hj; simp at hj
  | cons hd tl ih =>
    intro n j name hnodup hj
    rw [List.nodup_cons] at hnodup
    rw [List.enumFrom]
    cases j with
    | zero =>
      obtain rfl : hd = name := by simpa using hj
      rw [List.map_cons, List.find?_cons_of_pos _ (by simp)]
      simp
    | succ j' =>
      have hj' : tl[j']? = some name := by simpa using hj
      have hne : ¬ hd = name := by
        intro hcontra
        obtain ⟨hlt, hget⟩ := List.getElem?_eq_some_iff.mp hj'
        subst hcontra
        exact hnodup.1 (hget ▸ List.getElem_mem hlt)
      rw [List.map_cons, List.find?_cons_of_neg _ (by simp [hne])]
      rw [ih (n + 1) j' name hnodup.2 hj']
      have harith : n + 1 + j' = n + (j' + 1) := by omega
      rw [harith]

theorem rowGet_buildRow (headers vals : List String) (h : headers.Nodup)
    (j : Nat) (name : String) (hj : headers[j]? = some name) :
    rowGet (buildRow headers vals) name = some (vals.getD j "") := by
  rw [buildRow_eq_of_nodup headers vals h, rowGet]
  have henum : headers.enum = headers.enumFrom 0 := rfl
  rw [henum, find?_enumFrom_eq vals headers 0 j name h hj]
  simp

/-- C10: `parseCSV` returns `[]` whenever the trimmed input has fewer than
two lines; otherwise it returns exactly one record per line after the
header, and (for well-formed, duplicate-free headers — with duplicated
header names "the correspondingly positioned field" is not well defined
and the JS object keeps only the last assignment) each record maps the
`j`-th trimmed header name to the `j`-th trimmed field of its line, with
`""` substituted when the line has no `j`-th field. -/
theorem parseCSV_spec (text : String) :
    ((splitLines text).length < 2 → parseCSV text = []) ∧
    (2 ≤ (splitLines text).length →
      (parseCSV text).length = (splitLines text).length - 1 ∧
      ∀ k row, (parseCSV text)[k]? = some row →
        (csvHeaders text).Nodup →
        ∀ j name, (csvHeaders text)[j]? = some name →
          rowGet row name =
            some ((csvFields ((splitLines text).getD (k + 1) "")).getD j "")) := by
  rcases hsplit : splitLines text with _ | ⟨l0, rest⟩
  · refine ⟨fun _ => ?_, fun h2 => absurd h2 (by simp)⟩
    unfold parseCSV
    rw [hsplit]
  · rcases rest with _ | ⟨l1, rest'⟩
    · refine ⟨fun _ => ?_, fun h2 => absurd h2 (by simp)⟩
      unfold parseCSV
      rw [hsplit]
    · have hparse : parseCSV text = (l1 :: rest').map fun line =>
          buildRow ((jsSplit ',' l0).map jsTrim) ((jsSplit ',' line).map jsTrim) := by
        unfold parseCSV
        rw [hsplit]
      have hheaders : csvHeaders text = (jsSplit ',' l0).map jsTrim := by
        unfold csvHeaders
        rw [hsplit]
        simp
      refine ⟨fun habs => absurd habs (by simp), fun _ => ⟨?_, ?_⟩⟩
      · rw [hparse]
        simp
      · intro k row hk hnodup j name hj
        rw [hheaders] at hnodup hj
        rw [hparse, List.getElem?_map] at hk
        cases hline : (l1 :: rest')[k]? with
        | none => rw [hline] at hk; exact Option.noConfusion hk
        | some line =>
          rw [hline] at hk
          have hrow : buildRow ((jsSplit ',' l0).map jsTrim)
              ((jsSplit ',' line).map jsTrim) = row := by
            simpa using hk
          subst hrow
          have hgetD : (l0 :: l1 :: rest').getD (k + 1) "" = line := by
            rw [List.getD_cons_succ, List.getD_eq_getElem?_getD, hline]
            rfl
          rw [hgetD]
          unfold csvFields
          exact rowGet_buildRow _ _ hnodup j name hj

/-- Sample CSV text for the C10 witness: two data lines, the second one
short. -/
def csvSample : String := "a,b\n1,2\n3"

theorem parseCSV_spec_witness :
    ((splitLines csvSample).length < 2 → parseCSV csvSample = []) ∧
    (2 ≤ (splitLines csvSample).length →
      (parseCSV csvSample).length = (splitLines csvSample).length - 1 ∧
      ∀ k row, (parseCSV csvSample)[k]? = some row →
        (csvHeaders csvSample).Nodup →
        ∀ j name, (csvHeaders csvSample)[j]? = some name →
          rowGet row name =
            some ((csvFields ((splitLines csvSample).getD (k + 1) "")).getD j "")) :=
  parseCSV_spec csvSample

theorem formatScore_spec_witness :
    (formatScore 1 = "E" ↔ (1 : Int) = 0) ∧
    (0 < (1 : Int) → formatScore 1 = "+" ++ toString (1 : Int)) ∧
    ((1 : Int) < 0 → formatScore 1 = toString (1 : Int)) ∧
    ((formatScore 1).data.head? = some '+' ↔ 0 < (1 : Int)) :=
  formatScore_spec 1

end BetterSeason
